import Mathlib

/-!
Shallow embedding of `vectorbt/portfolio/decorators.py`
(`attach_returns_acc_methods` and the closures it synthesizes), together with
proofs about the augmentation driver, the synthesized methods and the
synthesized properties.
-/

namespace VBT

/-- Runtime values flowing through the generated members: a fragment of Python
values sufficient for the development (`None`, booleans, strings, integers). -/
inductive Value where
  | none : Value
  | bool : Bool → Value
  | str : String → Value
  | int : Int → Value
deriving DecidableEq

/-- Keyword-argument dictionaries (`**kwargs`): ordered string-keyed association
lists, with the insertion-order semantics of a Python dict. -/
abbrev Kwargs := List (String × Value)

/-- Python dict read `d.get(k)` / attribute-dictionary lookup: the binding of the
(unique) occurrence of key `k`, if any. -/
def assoc_get {α : Type} : List (String × α) → String → Option α
  | [], _ => Option.none
  | (k', v) :: rest, k => if k' = k then Option.some v else assoc_get rest k

/-- Python dict write `d[k] = v` / `setattr`: replaces the binding of `k` in
place if the key is present (keeping its position), else appends a new
binding at the end. -/
def assoc_set {α : Type} : List (String × α) → String → α → List (String × α)
  | [], k, v => [(k, v)]
  | (k', v') :: rest, k, v =>
      if k' = k then (k, v) :: rest else (k', v') :: assoc_set rest k v

/-- One configuration entry: the optional `source_name` and `docstring` keys of
the per-target settings dict. -/
structure Settings where
  source_name : Option String
  docstring : Option String
deriving DecidableEq

/-- The configuration passed to `attach_returns_acc_methods`: an ordered mapping
from target names to entries (`config.items()` iterates in insertion order;
keys of a Python dict are unique). -/
abbrev Config := List (String × Settings)

/-- Modelled from the spec: a companion (`vectorbt.returns.accessors.ReturnsAccessor`)
method, which is not under `src/`. Per the spec it is a named method of the
Companion Object; the Signature Introspector sees its formal parameter names
(`argNames`), and its behaviour is an arbitrary function of the keyword
arguments it is invoked with (`impl`). -/
structure AccMethod where
  argNames : List String
  impl : Kwargs → Value

/-- Modelled from the spec: a Companion Object (a `ReturnsAccessor` instance),
exposing arbitrarily named methods; which methods exist is known only at call
time. -/
structure ReturnsAcc where
  attrs : List (String × AccMethod)

/-- `getattr(returns_acc, name)`: dynamic name lookup on the companion. -/
def getattrAcc (acc : ReturnsAcc) (name : String) : Option AccMethod :=
  assoc_get acc.attrs name

/-- `get_func_arg_names(ret_method)`: the formal parameter names of a callable.
Modelled from the spec: the Signature Introspector (the real helper lives in
`vectorbt.utils.parsing`, which is not under `src/`) returns the set of names a
callable formally declares. -/
def get_func_arg_names (m : AccMethod) : List String := m.argNames

/-- The record of named arguments the synthesized method passes to the companion
factory `self.get_returns_acc(...)`. -/
structure FactoryArgs where
  group_by : Value
  benchmark_rets : Value
  freq : Value
  year_freq : Value
  use_asset_returns : Bool
  jitted : Value
deriving DecidableEq

/-- Modelled from the spec: a host instance, as consumed by the synthesized
methods — it exposes the companion factory `get_returns_acc`, an operation
accepting the six named parameters and returning a Companion Object. -/
structure HostInstance where
  get_returns_acc : FactoryArgs → ReturnsAcc

/-- The keyword arguments ultimately dispatched to the resolved companion
method: `if 'jitted' in get_func_arg_names(ret_method): kwargs['jitted'] = jitted`,
then the companion method is invoked with `**kwargs`. -/
def dispatch_kwargs (ret_method : AccMethod) (kwargs : Kwargs) (jitted : Value) : Kwargs :=
  if (get_func_arg_names ret_method).contains "jitted" then
    assoc_set kwargs "jitted" jitted
  else kwargs

/-- Body of the synthesized `new_method`: obtain the companion from the factory
(forwarding the six named arguments), resolve `_source_name` on it by dynamic
lookup (an `AttributeError` when absent), then invoke the resolved method with
the dispatched keyword arguments. `_source_name` is the keyword parameter whose
default is the captured source name; callers may override it. -/
def new_method (_source_name : String) (self : HostInstance)
    (group_by benchmark_rets freq year_freq : Value)
    (use_asset_returns : Bool) (jitted : Value) (kwargs : Kwargs) : Except String Value :=
  let returns_acc := self.get_returns_acc
    ⟨group_by, benchmark_rets, freq, year_freq, use_asset_returns, jitted⟩
  match getattrAcc returns_acc _source_name with
  | Option.none => Except.error ("AttributeError: " ++ _source_name)
  | Option.some ret_method =>
      Except.ok (ret_method.impl (dispatch_kwargs ret_method kwargs jitted))

/-- `new_method`, instrumented: additionally returns the list of companion-factory
invocations the call performs, each with the named arguments passed to the
factory. -/
def new_method_traced (_source_name : String) (self : HostInstance)
    (group_by benchmark_rets freq year_freq : Value)
    (use_asset_returns : Bool) (jitted : Value) (kwargs : Kwargs) :
    Except String Value × List FactoryArgs :=
  let fargs : FactoryArgs :=
    ⟨group_by, benchmark_rets, freq, year_freq, use_asset_returns, jitted⟩
  let returns_acc := self.get_returns_acc fargs
  (match getattrAcc returns_acc _source_name with
   | Option.none => Except.error ("AttributeError: " ++ _source_name)
   | Option.some ret_method =>
       Except.ok (ret_method.impl (dispatch_kwargs ret_method kwargs jitted)),
   [fargs])

/-- A synthesized method as attached to the class: the captured default of its
`_source_name` parameter, its `__doc__`, and its `__name__`. -/
structure SynthMethod where
  sourceName : String
  doc : String
  fname : String
deriving DecidableEq

/-- A synthesized property: the captured default of its getter's `_target_name`
parameter, its `__doc__`, and its `__name__`. -/
structure SynthProp where
  targetName : String
  doc : String
  fname : String
deriving DecidableEq

/-- A class member: a synthesized method, a synthesized property, or some
pre-existing member (identified here only by a tag). -/
inductive Member where
  | method : SynthMethod → Member
  | prop : SynthProp → Member
  | other : String → Member
deriving DecidableEq

/-- The host class: its `__name__`, whether it is a subclass of
`vectorbt.portfolio.base.Portfolio` (the capability `checks.assert_subclass_of`
tests; that helper is not under `src/` and is modelled from the spec as a
boolean capability), and its member dictionary. -/
structure Cls where
  cname : String
  isSubclassOfPortfolio : Bool
  members : List (String × Member)
deriving DecidableEq

/-- The synthesized method value for entry `(target_name, settings)`:
`source_name = settings.get('source_name', target_name)`;
`docstring = settings.get('docstring', "See ...ReturnsAccessor.<source_name>.")`;
`__name__ = 'get_' + target_name`. -/
def mkMethod (target_name : String) (settings : Settings) : SynthMethod :=
  let source_name := settings.source_name.getD target_name
  ⟨source_name,
   settings.docstring.getD
     ("See `vectorbt.returns.accessors.ReturnsAccessor." ++ source_name ++ "`."),
   "get_" ++ target_name⟩

/-- The synthesized property value for entry `target_name` on class `cname`:
its docstring is auto-generated and references the sibling method. -/
def mkProp (cname target_name : String) : SynthProp :=
  ⟨target_name,
   "`" ++ cname ++ ".get_" ++ target_name ++ "` with default arguments.",
   target_name⟩

/-- One iteration of the augmentation loop: `setattr` the method under
`'get_' + target_name`, then `setattr` the property under `target_name`. -/
def attach_entry (cname : String) (members : List (String × Member))
    (target_name : String) (settings : Settings) : List (String × Member) :=
  let members :=
    assoc_set members ("get_" ++ target_name) (Member.method (mkMethod target_name settings))
  assoc_set members target_name (Member.prop (mkProp cname target_name))

/-- The whole attachment loop, iterating the configuration in order. -/
def attach_all (cname : String) (members : List (String × Member)) (config : Config) :
    List (String × Member) :=
  config.foldl (fun ms e => attach_entry cname ms e.1 e.2) members

/-- `wrapper(cls)`: the capability check (`checks.assert_subclass_of(cls, "Portfolio")`)
runs once, before the loop; on failure the error propagates and the class is
left unmodified; on success every entry is attached and the class returned. -/
def wrapper (config : Config) (cls : Cls) : Cls × Option String :=
  if cls.isSubclassOfPortfolio then
    ({ cls with members := attach_all cls.cname cls.members config }, Option.none)
  else
    (cls, Option.some "cls must be a subclass of Portfolio")

/-- `attach_returns_acc_methods(config)` returns the wrapper (class decorator). -/
def attach_returns_acc_methods (config : Config) : Cls → Cls × Option String :=
  wrapper config

/-- `getattr(self, name)()` with no arguments: resolve the member on the
instance's class; a synthesized method runs with all of its declared defaults
(`group_by=None, benchmark_rets=None, freq=None, year_freq=None,
use_asset_returns=False, jitted=None`, empty `**kwargs`, `_source_name` at its
captured default); any non-method member yields a call-time error. -/
def getattr_call (cls : Cls) (self : HostInstance) (name : String) : Except String Value :=
  match assoc_get cls.members name with
  | Option.some (Member.method m) =>
      new_method m.sourceName self Value.none Value.none Value.none Value.none
        false Value.none []
  | Option.some _ => Except.error ("TypeError: " ++ name ++ " is not callable")
  | Option.none => Except.error ("AttributeError: " ++ name)

/-- Body of the synthesized `new_prop` (the property getter):
`getattr(self, 'get_' + _target_name)()`. -/
def new_prop (cls : Cls) (self : HostInstance) ( _target_name : String) : Except String Value :=
  getattr_call cls self ("get_" ++ _target_name)

/-- Reading the synthesized property `name` on an instance: the property object
found on the class runs its getter (`new_prop`) with `_target_name` at its
captured default. -/
def read_prop (cls : Cls) (self : HostInstance) (name : String) : Except String Value :=
  match assoc_get cls.members name with
  | Option.some (Member.prop p) => new_prop cls self p.targetName
  | Option.some _ => Except.error ("TypeError: " ++ name ++ " is not a property")
  | Option.none => Except.error ("AttributeError: " ++ name)

/-- Calling an attached method with its `_source_name` keyword parameter
optionally passed explicitly: `o = some n` models the call `...(_source_name=n)`,
`o = none` the usual call where the parameter takes its captured default. -/
def call_with_source (m : SynthMethod) (self : HostInstance)
    (group_by benchmark_rets freq year_freq : Value) (use_asset_returns : Bool)
    (jitted : Value) (o : Option String) (kwargs : Kwargs) : Except String Value :=
  new_method (o.getD m.sourceName) self group_by benchmark_rets freq year_freq
    use_asset_returns jitted kwargs

/-- The companion-method name an attached method resolves on a call made while
the configuration object currently holds `_config_now`: the closure reads only
the captured default of its `_source_name` parameter (a value stored in the
function object at synthesis), never the configuration, so the configuration's
current contents have no influence. -/
def resolved_source_name_at ( _config_now : Config) (cls : Cls) (name : String) :
    Option String :=
  match assoc_get cls.members name with
  | Option.some (Member.method m) => Option.some m.sourceName
  | _ => Option.none

/-- All derived member names an augmentation writes: `get_<t>` and `<t>`, per
entry, in loop order. -/
def derived_names : Config → List String
  | [] => []
  | e :: rest => ("get_" ++ e.1) :: e.1 :: derived_names rest

/-- Reading an updated association list: the written key returns the new value,
every other key is unaffected. -/
theorem assoc_get_set {α : Type} (d : List (String × α)) (k : String) (v : α) (k' : String) :
    assoc_get (assoc_set d k v) k' = if k = k' then Option.some v else assoc_get d k' := by
  induction d with
  | nil =>
      simp only [assoc_set, assoc_get]
  | cons hd tl ih =>
      obtain ⟨k₀, v₀⟩ := hd
      simp only [assoc_set]
      by_cases h₀ : k₀ = k
      · subst h₀
        simp only [if_pos rfl, assoc_get]
        by_cases h₁ : k₀ = k' <;> simp [h₁]
      · simp only [if_neg h₀, assoc_get]
        by_cases h₁ : k₀ = k'
        · subst h₁
          have hne : ¬ k = k₀ := fun h => h₀ h.symm
          simp [ih, hne]
        · simp [ih, h₁]

/-- Reading the members after one loop iteration: the property shadows the
method when the names coincide; other names are unaffected. -/
theorem assoc_get_attach_entry (cname : String) (ms : List (String × Member))
    (t : String) (s : Settings) (n : String) :
    assoc_get (attach_entry cname ms t s) n =
      if t = n then Option.some (Member.prop (mkProp cname t))
      else if "get_" ++ t = n then Option.some (Member.method (mkMethod t s))
      else assoc_get ms n := by
  simp only [attach_entry, assoc_get_set]

/-- A string strictly grows when `"get_"` is prepended. -/
theorem get_append_ne (t : String) : "get_" ++ t ≠ t := by
  intro h
  have hlen : ("get_" ++ t).length = t.length := congrArg String.length h
  rw [String.length_append] at hlen
  have h4 : ("get_" : String).length = 4 := rfl
  omega

/-- Unfolding `attach_all` one entry at a time. -/
theorem attach_all_cons (cname : String) (ms : List (String × Member)) (t : String)
    (s : Settings) (rest : Config) :
    attach_all cname ms ((t, s) :: rest) = attach_all cname (attach_entry cname ms t s) rest :=
  rfl

/-- Names not derived from any configuration entry are untouched by the loop. -/
theorem assoc_get_attach_all_notmem (cname : String) (config : Config)
    (ms : List (String × Member)) (n : String) (h : n ∉ derived_names config) :
    assoc_get (attach_all cname ms config) n = assoc_get ms n := by
  induction config generalizing ms with
  | nil => rfl
  | cons e rest ih =>
      obtain ⟨t, s⟩ := e
      simp only [derived_names, List.mem_cons, not_or] at h
      obtain ⟨hgt, ht, hrest⟩ := h
      rw [attach_all_cons, ih (attach_entry cname ms t s) hrest, assoc_get_attach_entry,
        if_neg (fun hc => ht hc.symm), if_neg (fun hc => hgt hc.symm)]

/-- When the derived names of the configuration are pairwise distinct, the loop
leaves, for every entry `(t, s)`, the synthesized method at `get_<t>` and the
synthesized property at `<t>`. -/
theorem assoc_get_attach_all_mem (cname : String) (config : Config)
    (ms : List (String × Member)) (t : String) (s : Settings)
    (hnd : (derived_names config).Nodup) (hmem : (t, s) ∈ config) :
    assoc_get (attach_all cname ms config) ("get_" ++ t)
        = Option.some (Member.method (mkMethod t s))
      ∧ assoc_get (attach_all cname ms config) t
        = Option.some (Member.prop (mkProp cname t)) := by
  induction config generalizing ms with
  | nil => cases hmem
  | cons e rest ih =>
      obtain ⟨t₀, s₀⟩ := e
      simp only [derived_names, List.nodup_cons, List.mem_cons, not_or] at hnd
      obtain ⟨⟨hgt_ne, hgt_nin⟩, ht_nin, hnd'⟩ := hnd
      rcases List.mem_cons.mp hmem with heq | hmem'
      · have ht : t = t₀ := congrArg Prod.fst heq
        have hs : s = s₀ := congrArg Prod.snd heq
        subst ht; subst hs
        rw [attach_all_cons,
          assoc_get_attach_all_notmem cname rest _ _ hgt_nin,
          assoc_get_attach_all_notmem cname rest _ _ ht_nin,
          assoc_get_attach_entry, assoc_get_attach_entry]
        constructor
        · rw [if_neg (fun hc => get_append_ne t hc.symm), if_pos rfl]
        · rw [if_pos rfl]
      · exact ih (attach_entry cname ms t₀ s₀) hnd' hmem'

/-- A successful augmentation: the capability holds, so the wrapper runs the
whole loop and reports no error. -/
theorem wrapper_ok (config : Config) (cls : Cls) (h : cls.isSubclassOfPortfolio = true) :
    wrapper config cls =
      ({ cls with members := attach_all cls.cname cls.members config }, Option.none) := by
  simp [wrapper, h]

/-- A companion method that declares a `jitted` parameter; it answers with the
number of keyword arguments it received. -/
def accJ : AccMethod := ⟨["returns", "jitted"], fun kw => Value.int (Int.ofNat kw.length)⟩

/-- A companion method that does not declare `jitted`. -/
def accN : AccMethod := ⟨["returns"], fun _ => Value.str "ok"⟩

/-- A companion exposing `sharpe_ratio` (declaring `jitted`) and `sortino_ratio`
(not declaring it). -/
def acc0 : ReturnsAcc := ⟨[("sharpe_ratio", accJ), ("sortino_ratio", accN)]⟩

/-- A host instance whose factory always returns `acc0`. -/
def inst0 : HostInstance := ⟨fun _ => acc0⟩

/-- A host instance whose companion exposes no methods at all. -/
def instEmpty : HostInstance := ⟨fun _ => ReturnsAcc.mk []⟩

/-- A conforming host class with no members. -/
def cls0 : Cls := ⟨"P", true, []⟩

/-- A non-conforming host class with one pre-existing member. -/
def clsBad : Cls := ⟨"Q", false, [("x", Member.other "pre")]⟩

/-- The configuration `{"sharpe_ratio": {}}`. -/
def config0 : Config := [("sharpe_ratio", ⟨Option.none, Option.none⟩)]

/-- `cls0` augmented with `config0`. -/
def clsP : Cls := (wrapper config0 cls0).1

/-- Claim C1: on a call of a synthesized method, if `'jitted'` is among the
formal parameter names of the resolved companion method, the caller-supplied
`jitted` value is added unchanged to the keyword arguments passed to it (all
other keyword arguments unaffected); if `'jitted'` is not among those names,
the keyword arguments are dispatched unchanged, so no `jitted` value reaches
the companion method. -/
theorem claim_C1 (self : HostInstance) (s : String)
    (gb br fr yf : Value) (uar : Bool) (j : Value) (kw : Kwargs) (rm : AccMethod)
    (hres : getattrAcc (self.get_returns_acc ⟨gb, br, fr, yf, uar, j⟩) s
      = Option.some rm) :
    new_method s self gb br fr yf uar j kw
        = Except.ok (rm.impl (dispatch_kwargs rm kw j))
      ∧ ((get_func_arg_names rm).contains "jitted" = true →
          assoc_get (dispatch_kwargs rm kw j) "jitted" = Option.some j
            ∧ ∀ k, k ≠ "jitted" →
                assoc_get (dispatch_kwargs rm kw j) k = assoc_get kw k)
      ∧ ((get_func_arg_names rm).contains "jitted" = false →
          dispatch_kwargs rm kw j = kw
            ∧ (assoc_get kw "jitted" = Option.none →
                assoc_get (dispatch_kwargs rm kw j) "jitted" = Option.none)) := by
  refine ⟨?_, ?_, ?_⟩
  · simp only [new_method]
    rw [hres]
  · intro hj
    constructor
    · simp only [dispatch_kwargs]
      rw [if_pos hj, assoc_get_set, if_pos rfl]
    · intro k hk
      simp only [dispatch_kwargs]
      rw [if_pos hj, assoc_get_set, if_neg (fun hc => hk hc.symm)]
  · intro hj
    have hj' : ¬ ((get_func_arg_names rm).contains "jitted" = true) := by
      rw [hj]
      exact Bool.false_ne_true
    constructor
    · simp only [dispatch_kwargs]
      rw [if_neg hj']
    · intro hnone
      simp only [dispatch_kwargs]
      rw [if_neg hj']
      exact hnone

/-- Witness for C1: a concrete call through `inst0`; `sharpe_ratio` declares
`jitted`, so the dispatched keyword arguments carry the caller's value. -/
theorem claim_C1_witness :
    new_method "sharpe_ratio" inst0 Value.none Value.none Value.none Value.none false
        (Value.str "nb") []
      = Except.ok (accJ.impl (dispatch_kwargs accJ [] (Value.str "nb")))
      ∧ assoc_get (dispatch_kwargs accJ [] (Value.str "nb")) "jitted"
          = Option.some (Value.str "nb") := by
  have h := claim_C1 inst0 "sharpe_ratio" Value.none Value.none Value.none Value.none
    false (Value.str "nb") [] accJ rfl
  exact ⟨h.1, (h.2.1 rfl).1⟩

/-- Claim C2: the capability check runs once, before any attachment; when the
host class is not a subclass of `Portfolio`, the augmentation call reports a
configuration-time error and the class comes out with its member dictionary
unchanged — zero members attached. -/
theorem claim_C2 (config : Config) (cls : Cls) (h : cls.isSubclassOfPortfolio = false) :
    wrapper config cls = (cls, Option.some "cls must be a subclass of Portfolio")
      ∧ (wrapper config cls).1.members = cls.members := by
  constructor
  · simp [wrapper, h]
  · simp [wrapper, h]

/-- Witness for C2: augmenting the non-conforming `clsBad` fails atomically. -/
theorem claim_C2_witness :
    wrapper config0 clsBad = (clsBad, Option.some "cls must be a subclass of Portfolio")
      ∧ (wrapper config0 clsBad).1.members = clsBad.members :=
  claim_C2 config0 clsBad rfl

/-- Claim C3: for a host class whose member `t` is the synthesized property for
target `t`, reading the property on an instance gives exactly the result of
looking up and calling `get_<t>` on that instance with no arguments — the two
can never diverge. -/
theorem claim_C3 (cls : Cls) (self : HostInstance) (t : String) (p : SynthProp)
    (hp : assoc_get cls.members t = Option.some (Member.prop p))
    (ht : p.targetName = t) :
    read_prop cls self t = getattr_call cls self ("get_" ++ t) := by
  simp only [read_prop]
  rw [hp]
  simp only [new_prop, ht]

/-- Witness for C3: on the augmented class `clsP`, `p.sharpe_ratio` agrees with
`p.get_sharpe_ratio()`. -/
theorem claim_C3_witness :
    read_prop clsP inst0 "sharpe_ratio"
      = getattr_call clsP inst0 ("get_" ++ "sharpe_ratio") :=
  claim_C3 clsP inst0 "sharpe_ratio" (mkProp "P" "sharpe_ratio") rfl rfl

/-- Claim C4: companion-method resolution happens by dynamic lookup on every
call, never at synthesis: augmentation succeeds for any configuration whenever
the capability holds (no entry is resolved then), while a call whose
`_source_name` is absent from the companion produced for that call raises an
attribute-resolution error, and a call whose companion does expose it
succeeds. -/
theorem claim_C4 (config : Config) (cls : Cls) (h : cls.isSubclassOfPortfolio = true)
    (self : HostInstance) (s : String) (gb br fr yf : Value) (uar : Bool) (j : Value)
    (kw : Kwargs) :
    (wrapper config cls).2 = Option.none
      ∧ (getattrAcc (self.get_returns_acc ⟨gb, br, fr, yf, uar, j⟩) s = Option.none →
          new_method s self gb br fr yf uar j kw
            = Except.error ("AttributeError: " ++ s))
      ∧ (∀ rm : AccMethod,
          getattrAcc (self.get_returns_acc ⟨gb, br, fr, yf, uar, j⟩) s
              = Option.some rm →
          new_method s self gb br fr yf uar j kw
            = Except.ok (rm.impl (dispatch_kwargs rm kw j))) := by
  refine ⟨by simp [wrapper, h], ?_, ?_⟩
  · intro hnone
    simp only [new_method]
    rw [hnone]
  · intro rm hsome
    simp only [new_method]
    rw [hsome]

/-- Witness for C4: an entry whose source method does not exist anywhere —
augmentation still succeeds, and the call on an instance whose companion lacks
the name raises the attribute error. -/
theorem claim_C4_witness :
    (wrapper [("alpha", ⟨Option.some "no_such", Option.none⟩)] cls0).2 = Option.none
      ∧ new_method "no_such" instEmpty Value.none Value.none Value.none Value.none
          false Value.none []
        = Except.error ("AttributeError: " ++ "no_such") := by
  have h := claim_C4 [("alpha", ⟨Option.some "no_such", Option.none⟩)] cls0 rfl
    instEmpty "no_such" Value.none Value.none Value.none Value.none false Value.none []
  exact ⟨h.1, h.2.1 rfl⟩

/-- A configuration in which one target name collides with another entry's
derived method name: `{"x": {}, "get_x": {}}`. -/
def configClash : Config :=
  [("x", ⟨Option.none, Option.none⟩), ("get_x", ⟨Option.none, Option.none⟩)]

/-- Claim C5 counterexample: with `configClash`, augmentation succeeds, yet the
member finally stored at `get_x` is the property synthesized for entry `get_x`,
not the method synthesized for entry `x` — so entry `x` does not end up with
its method, refuting the claim as stated for arbitrary configurations. -/
theorem claim_C5_counterexample :
    (wrapper configClash cls0).2 = Option.none
      ∧ assoc_get (wrapper configClash cls0).1.members "get_x"
          = Option.some (Member.prop (mkProp "P" "get_x")) := by
  constructor
  · rfl
  · rfl

/-- Claim C5 (amended): provided the derived member names (`get_<t>` and `<t>`
over all entries) are pairwise distinct, a successful augmentation leaves, for
every entry, exactly the synthesized method at `get_<t>` and the synthesized
property at `<t>`, and attaches nothing under any other name. -/
theorem claim_C5_amended (config : Config) (cls : Cls) (t : String) (s : Settings)
    (hsub : cls.isSubclassOfPortfolio = true)
    (hnd : (derived_names config).Nodup) (hmem : (t, s) ∈ config) :
    assoc_get (wrapper config cls).1.members ("get_" ++ t)
        = Option.some (Member.method (mkMethod t s))
      ∧ assoc_get (wrapper config cls).1.members t
        = Option.some (Member.prop (mkProp cls.cname t))
      ∧ ∀ n, n ∉ derived_names config →
          assoc_get (wrapper config cls).1.members n = assoc_get cls.members n := by
  rw [wrapper_ok config cls hsub]
  have h := assoc_get_attach_all_mem cls.cname config cls.members t s hnd hmem
  exact ⟨h.1, h.2, fun n hn => assoc_get_attach_all_notmem cls.cname config cls.members n hn⟩

/-- Witness for the amended C5: the single-entry `config0` on `cls0`. -/
theorem claim_C5_amended_witness :
    assoc_get (wrapper config0 cls0).1.members ("get_" ++ "sharpe_ratio")
        = Option.some (Member.method (mkMethod "sharpe_ratio" ⟨Option.none, Option.none⟩))
      ∧ assoc_get (wrapper config0 cls0).1.members "sharpe_ratio"
          = Option.some (Member.prop (mkProp "P" "sharpe_ratio"))
      ∧ assoc_get (wrapper config0 cls0).1.members "unrelated"
          = assoc_get cls0.members "unrelated" := by
  have h := claim_C5_amended config0 cls0 "sharpe_ratio" ⟨Option.none, Option.none⟩
    rfl (by decide) (by decide)
  exact ⟨h.1, h.2.1, h.2.2 "unrelated" (by decide)⟩

/-- Claim C6 counterexample: the parenthetical "only the first five are passed
through" is false — the factory invocation performed by a synthesized call also
receives the caller's `jitted` value (here `Value.str "nb"`, not the default
`Value.none`). -/
theorem claim_C6_counterexample :
    ((new_method_traced "sharpe_ratio" inst0 Value.none Value.none Value.none Value.none
        false (Value.str "nb") []).2.map FactoryArgs.jitted)
      = [Value.str "nb"]
      ∧ Value.str "nb" ≠ Value.none := by
  constructor
  · rfl
  · decide

/-- Claim C6 (amended): on every call of a synthesized method the companion
factory is invoked exactly once, with all six caller-supplied values —
`group_by`, `benchmark_rets`, `freq`, `year_freq`, `use_asset_returns` and
`jitted` — forwarded unchanged as named arguments; the traced run returns the
same result as the plain one. -/
theorem claim_C6_amended (s : String) (self : HostInstance) (gb br fr yf : Value)
    (uar : Bool) (j : Value) (kw : Kwargs) :
    (new_method_traced s self gb br fr yf uar j kw).2 = [⟨gb, br, fr, yf, uar, j⟩]
      ∧ (new_method_traced s self gb br fr yf uar j kw).1
          = new_method s self gb br fr yf uar j kw := by
  exact ⟨rfl, rfl⟩

/-- The configuration `{"alpha": {"source_name": "jensens_alpha"}}`. -/
def configA : Config := [("alpha", ⟨Option.some "jensens_alpha", Option.none⟩)]

/-- A mutation of `configA`: the entry's `source_name` replaced after
augmentation. -/
def configAMut : Config := [("alpha", ⟨Option.some "something_else", Option.none⟩)]

/-- Claim C7: the synthesized method captures the entry's `source_name` by value
at synthesis time — whatever the configuration object holds at call time, the
attached method resolves the name captured from the entry as it stood when the
augmentation ran. -/
theorem claim_C7 (config : Config) (cls : Cls) (t : String) (s : Settings)
    (hsub : cls.isSubclassOfPortfolio = true)
    (hnd : (derived_names config).Nodup) (hmem : (t, s) ∈ config) :
    ∀ config' : Config,
      resolved_source_name_at config' (wrapper config cls).1 ("get_" ++ t)
        = Option.some (s.source_name.getD t) := by
  intro config'
  rw [wrapper_ok config cls hsub]
  have h := assoc_get_attach_all_mem cls.cname config cls.members t s hnd hmem
  simp only [resolved_source_name_at]
  rw [h.1]
  simp [mkMethod]

/-- Witness for C7: augment with `configA`, then mutate the configuration to
`configAMut`; the attached method still resolves `jensens_alpha`. -/
theorem claim_C7_witness :
    resolved_source_name_at configAMut (wrapper configA cls0).1 ("get_" ++ "alpha")
      = Option.some "jensens_alpha" :=
  claim_C7 configA cls0 "alpha" ⟨Option.some "jensens_alpha", Option.none⟩
    rfl (by decide) (by decide) configAMut

/-- Claim C8: the generated method's docstring is the entry's `docstring` when
one is supplied, and otherwise the generated default referencing the entry's
source name, which itself defaults to the target name when `source_name` is
omitted. -/
theorem claim_C8 (cname : String) (ms : List (String × Member)) (t : String)
    (s : Settings) :
    assoc_get (attach_entry cname ms t s) ("get_" ++ t)
      = Option.some (Member.method
          ⟨s.source_name.getD t,
           s.docstring.getD
             ("See `vectorbt.returns.accessors.ReturnsAccessor."
               ++ s.source_name.getD t ++ "`."),
           "get_" ++ t⟩) := by
  rw [assoc_get_attach_entry, if_neg (fun hc => get_append_ne t hc.symm), if_pos rfl]
  rfl

/-- A conforming host class that already owns members under both names the
augmentation will write. -/
def clsPre : Cls :=
  ⟨"P", true,
   [("get_sharpe_ratio", Member.other "old_method"), ("sharpe_ratio", Member.other "old_prop")]⟩

/-- Claim C9: a pre-existing member under `get_<t>` or `<t>` is silently
replaced by the synthesized method and property; the augmentation raises no
error on the collision. -/
theorem claim_C9 (config : Config) (cls : Cls) (t : String) (s : Settings)
    (m₀ m₁ : Member)
    (hsub : cls.isSubclassOfPortfolio = true)
    (hnd : (derived_names config).Nodup) (hmem : (t, s) ∈ config)
    (h₀ : assoc_get cls.members ("get_" ++ t) = Option.some m₀)
    (h₁ : assoc_get cls.members t = Option.some m₁) :
    (wrapper config cls).2 = Option.none
      ∧ assoc_get (wrapper config cls).1.members ("get_" ++ t)
          = Option.some (Member.method (mkMethod t s))
      ∧ assoc_get (wrapper config cls).1.members t
          = Option.some (Member.prop (mkProp cls.cname t)) := by
  rw [wrapper_ok config cls hsub]
  have h := assoc_get_attach_all_mem cls.cname config cls.members t s hnd hmem
  exact ⟨rfl, h.1, h.2⟩

/-- Witness for C9: `clsPre` holds old members under both names; augmentation
succeeds and both are replaced by the synthesized ones. -/
theorem claim_C9_witness :
    (wrapper config0 clsPre).2 = Option.none
      ∧ assoc_get (wrapper config0 clsPre).1.members ("get_" ++ "sharpe_ratio")
          = Option.some (Member.method (mkMethod "sharpe_ratio" ⟨Option.none, Option.none⟩))
      ∧ assoc_get (wrapper config0 clsPre).1.members "sharpe_ratio"
          = Option.some (Member.prop (mkProp "P" "sharpe_ratio")) :=
  claim_C9 config0 clsPre "sharpe_ratio" ⟨Option.none, Option.none⟩
    (Member.other "old_method") (Member.other "old_prop")
    rfl (by decide) (by decide) (by decide) (by decide)

/-- Claim C10: the synthesized method's signature carries the keyword parameter
`_source_name`, defaulting to the captured source name; passing it explicitly
redirects that call's companion lookup to the passed name (so a missing passed
name raises its attribute error), while omitting it resolves the captured
default; likewise the property getter exposes an overridable `_target_name`
parameter that selects which `get_<name>` member the getter invokes. -/
theorem claim_C10 (m : SynthMethod) (self : HostInstance) (gb br fr yf : Value)
    (uar : Bool) (j : Value) (kw : Kwargs) (n : String) (cls : Cls) :
    call_with_source m self gb br fr yf uar j (Option.some n) kw
        = new_method n self gb br fr yf uar j kw
      ∧ call_with_source m self gb br fr yf uar j Option.none kw
        = new_method m.sourceName self gb br fr yf uar j kw
      ∧ (getattrAcc (self.get_returns_acc ⟨gb, br, fr, yf, uar, j⟩) n = Option.none →
          call_with_source m self gb br fr yf uar j (Option.some n) kw
            = Except.error ("AttributeError: " ++ n))
      ∧ new_prop cls self n = getattr_call cls self ("get_" ++ n) := by
  refine ⟨rfl, rfl, ?_, rfl⟩
  intro h
  simp only [call_with_source, Option.getD, new_method]
  rw [h]

/-- Witness for C10: overriding `_source_name` on a companion without the name
raises the attribute error for the overridden name, and the property getter
with an explicit `_target_name` reads `get_<name>`. -/
theorem claim_C10_witness :
    call_with_source (mkMethod "sharpe_ratio" ⟨Option.none, Option.none⟩) instEmpty
        Value.none Value.none Value.none Value.none false Value.none
        (Option.some "no_such") []
      = Except.error ("AttributeError: " ++ "no_such")
      ∧ new_prop clsP inst0 "sharpe_ratio"
        = getattr_call clsP inst0 ("get_" ++ "sharpe_ratio") := by
  have h := claim_C10 (mkMethod "sharpe_ratio" ⟨Option.none, Option.none⟩) instEmpty
    Value.none Value.none Value.none Value.none false Value.none [] "no_such" clsP
  have h' := claim_C10 (mkMethod "sharpe_ratio" ⟨Option.none, Option.none⟩) inst0
    Value.none Value.none Value.none Value.none false Value.none [] "sharpe_ratio" clsP
  exact ⟨h.2.2.1 rfl, h'.2.2.2⟩

end VBT
